import Mathlib

/-!
Verification of the monolith arena allocator and interning layer
(src/src/arena.rs, src/src/intern.rs), as a shallow embedding.

Machine integers (`usize`) are modelled as `Nat` with an explicit
`% 2 ^ 64` wherever the Rust source performs arithmetic that can wrap in a
release build.  Arena memory is a byte map `Nat → Nat` indexed by offset
from the arena base; handles store their base offset instead of a raw
pointer.  Fallible operations return an explicit three-way result:
`ok` (the Rust `Some`), `fail` (the Rust `None`) and `panicked` (an
out-of-bounds index or integer-overflow abort).
-/

namespace Monolith

/-- The modulus of 64-bit `usize` arithmetic. -/
def W : Nat := 2 ^ 64

/-- The source aligns the cursor with `(offset + align - 1) & !(align - 1)`
(arena.rs line 129).  For a power-of-two `align` — which Rust guarantees for
`align_of::<T>()` — that bit mask equals rounding up to the next multiple of
`align`, which is what we define here.  The intermediate `offset + align - 1`
cannot overflow in the source because `offset ≤ data.len() ≤ isize::MAX` and
alignments are at most `2 ^ 29`. -/
def alignUp (c a : Nat) : Nat := ((c + a - 1) / a) * a

/-- `Arena { data: Box<[u8]>, offset: Cell<usize> }` (arena.rs lines 8-11):
`cap` is `data.len()` (the capacity fixed at construction), `cursor` is the
`offset` cell, `mem` the byte contents of `data`. -/
structure Arena where
  cap : Nat
  cursor : Nat
  mem : Nat → Nat

/-- Outcome of a fallible arena operation: `ok` = `Some`, `fail` = `None`,
`panicked` = the call aborted (out-of-bounds index or overflow). -/
inductive AllocResult (α : Type) where
  | ok (val : α)
  | fail
  | panicked

/-- `Arena::new` (arena.rs lines 119-124): a zero-initialized region of
exactly `size` bytes, cursor at 0. -/
def Arena.new (size : Nat) : Arena := ⟨size, 0, fun _ => 0⟩

/-- `ArenaSlice<T>` (arena.rs lines 14-18): the typed handle.  `addr` is the
byte offset of `ptr` from the arena base, `len` the element count.  (The
`arena` back pointer is implicit: operations on a handle take the arena as an
argument.) -/
structure ArenaSlice where
  addr : Nat
  len : Nat
deriving DecidableEq, Repr

/-- Overwrite `bs.length` bytes of `m` starting at `addr`. -/
def writeBytes (m : Nat → Nat) (addr : Nat) (bs : List Nat) : Nat → Nat :=
  fun i => if addr ≤ i ∧ i < addr + bs.length then bs.getD (i - addr) 0 else m i

/-- Read `n` bytes of `m` starting at `addr`. -/
def readBytes (m : Nat → Nat) (addr n : Nat) : List Nat :=
  (List.range n).map fun i => m (addr + i)

/-- `Arena::allocate::<T>(len)` (arena.rs lines 126-144) for a type of size
`s` and alignment `a`.  `size * len` and the following addition are ordinary
Rust arithmetic: in a release build they wrap modulo `2 ^ 64` (hence the
`% W`).  Inside the success branch the source evaluates `&self.data[offset]`,
which panics when `offset` is not below `data.len()`; the reservation itself
writes nothing. -/
def Arena.allocate (A : Arena) (s a len : Nat) : AllocResult (ArenaSlice × Arena) :=
  let offset := alignUp A.cursor a
  let newOffset := (offset + (s * len) % W) % W
  if newOffset ≤ A.cap then
    if offset < A.cap then
      .ok (⟨offset, len⟩, { A with cursor := newOffset })
    else
      .panicked
  else
    .fail

/-- `Arena::push::<T>(value)` (arena.rs lines 152-174).  The pushed value is
represented by its byte image `bytes` (so `size_of::<T>()` is
`bytes.length`); on success the value is written in place at the reserved
offset and the returned handle has element count 1. -/
def Arena.push (A : Arena) (a : Nat) (bytes : List Nat) : AllocResult (ArenaSlice × Arena) :=
  let offset := alignUp A.cursor a
  let newOffset := (offset + bytes.length) % W
  if newOffset ≤ A.cap then
    if offset < A.cap then
      .ok (⟨offset, 1⟩, { A with cursor := newOffset, mem := writeBytes A.mem offset bytes })
    else
      .panicked
  else
    .fail

/-- `Arena::push_slice::<T>(values)` (arena.rs lines 176-197) for element
size `s` and alignment `a`; each element of `values` is represented by its
byte image (a list of length `s`).  `size_of_val(values)` is `s * values.len()`
— computed exactly, since the byte size of an existing slice fits in `isize`
— and the cursor addition wraps like all release-mode arithmetic.  On success
the element bytes are copied to the reserved offset. -/
def Arena.push_slice (A : Arena) (s a : Nat) (elems : List (List Nat)) :
    AllocResult (ArenaSlice × Arena) :=
  let offset := alignUp A.cursor a
  let newOffset := (offset + s * elems.length) % W
  if newOffset ≤ A.cap then
    if offset < A.cap then
      .ok (⟨offset, elems.length⟩,
        { A with cursor := newOffset, mem := writeBytes A.mem offset elems.flatten })
    else
      .panicked
  else
    .fail

/-- `Arena::clear` (arena.rs lines 204-206): resets the cursor only; the byte
contents are untouched. -/
def Arena.clear (A : Arena) : Arena := { A with cursor := 0 }

/-- `Arena::size` (arena.rs lines 208-210). -/
def Arena.size (A : Arena) : Nat := A.cap

/-- `Arena::occupied` (arena.rs lines 212-214). -/
def Arena.occupied (A : Arena) : Nat := A.cursor

/-- `Arena::is_full` (arena.rs lines 216-218). -/
def Arena.is_full (A : Arena) : Bool := A.occupied == A.size

/-- `impl Clone for ArenaSlice<T>` (arena.rs lines 46-56): re-reads the
handle's `len` elements (each `s` bytes, starting at `h.addr`) and pushes
them into the same arena with `push_slice`, then `.unwrap()`s — so a `None`
from `push_slice` becomes a panic. -/
def ArenaSlice.clone (A : Arena) (s a : Nat) (h : ArenaSlice) :
    AllocResult (ArenaSlice × Arena) :=
  let elems := (List.range h.len).map fun i => readBytes A.mem (h.addr + s * i) s
  match A.push_slice s a elems with
  | .ok (h2, A2) => .ok (⟨h2.addr, h.len⟩, A2)
  | .fail => .panicked
  | .panicked => .panicked

/-- `ArenaString` (arena.rs lines 21-24): `inner` holds the byte contents of
the backing `ArenaSlice<u8>` (so the slice's total length is
`inner.length`), `len` is the number of bytes written so far. -/
structure ArenaString where
  inner : List Nat
  len : Nat
deriving DecidableEq, Repr

/-- Outcome of `ArenaString::write_str`: `ok` = `Ok(())` with the updated
string, `err` = `Err(core::fmt::Error)`, `panicked` = an out-of-range slice
index. -/
inductive WriteResult where
  | ok (st : ArenaString)
  | err
  | panicked
deriving DecidableEq, Repr

/-- Splice `s` into `l` at position `pos` (the effect of
`slice.copy_from_slice` on the subslice `[pos, pos + s.length)`). -/
def listWrite (l : List Nat) (pos : Nat) (s : List Nat) : List Nat :=
  l.take pos ++ s ++ l.drop (pos + s.length)

/-- `ArenaString::write_str` (arena.rs lines 96-107).  The guard is the
source's `self.len() > s.len()`, where `self.len()` resolves through `Deref`
to the length of the whole backing slice (`inner.length`), not to the bytes
written so far.  When the guard passes, the source takes the subslice
`self.inner[self.len .. self.len + s.len()]`, which panics if its end exceeds
`inner.length`; otherwise it copies `s` there and advances `len`. -/
def ArenaString.write_str (st : ArenaString) (s : List Nat) : WriteResult :=
  if s.length < st.inner.length then
    if st.len + s.length ≤ st.inner.length then
      .ok ⟨listWrite st.inner st.len s, st.len + s.length⟩
    else
      .panicked
  else
    .err

/-- `Intern<T>` (intern.rs lines 12-16): `data` is the byte offset of the
stored value inside the pool's arena, `generation` the pool generation at
creation.  (The `PhantomData` marker is dropped.) -/
structure Intern where
  data : Nat
  generation : Nat
deriving DecidableEq, Repr

/-- One entry of a `Pool`'s `lookup` vector.  The source stores only the
`Intern<T>` and re-reads the value through `*(intern.data as *const T)`
(intern.rs line 59); since the pool owns its arena and entry bytes are
written exactly once per generation, we carry the stored value `val`
alongside the handle instead of encoding `T` into bytes. -/
structure PoolEntry (T : Type) where
  val : T
  intern : Intern

/-- `Pool<T>` (intern.rs lines 5-9). -/
structure Pool (T : Type) where
  arena : Arena
  lookup : List (PoolEntry T)
  generation : Nat

/-- `Pool::new` (intern.rs lines 49-55). -/
def Pool.new (T : Type) (size : Nat) : Pool T := ⟨Arena.new size, [], 0⟩

/-- `Pool::intern` (intern.rs lines 57-80) for a value type of size `sT`.
The linear scan returns the first entry whose stored value equals `value`;
on a miss it reserves `size_of::<T>()` bytes from the arena (a plain byte
allocation: the element type of the inner `allocate` call is erased by the
immediate pointer casts, and the byte count `len = size_of::<T>()` together
with the pool tests' `occupied()` arithmetic fixes size 1 / alignment 1),
writes the value there, appends the new entry and returns it.  A `None` from
`allocate` propagates through the `?`. -/
def Pool.intern {T : Type} [DecidableEq T] (sT : Nat) (p : Pool T) (value : T) :
    AllocResult (Intern × Pool T) :=
  match p.lookup.find? (fun e => decide (e.val = value)) with
  | some e => .ok (e.intern, p)
  | none =>
    match p.arena.allocate 1 1 sT with
    | .ok (ptr, arena2) =>
      let intern : Intern := ⟨ptr.addr, p.generation⟩
      .ok (intern, ⟨arena2, p.lookup ++ [⟨value, intern⟩], p.generation⟩)
    | .fail => .fail
    | .panicked => .panicked

/-- `Pool::clear` (intern.rs lines 82-86): clears the arena, discards the
entries and increments the generation. -/
def Pool.clear {T : Type} (p : Pool T) : Pool T := ⟨p.arena.clear, [], p.generation + 1⟩

/-- `Pool::occupied` (intern.rs lines 88-90). -/
def Pool.occupied {T : Type} (p : Pool T) : Nat := p.arena.occupied

/-- `Pool::len` (intern.rs lines 92-94). -/
def Pool.len {T : Type} (p : Pool T) : Nat := p.lookup.length

/-- `StrIntern` (intern.rs lines 24-27): offset and byte length of an
interned string. -/
structure StrIntern where
  data : Nat
  len : Nat
deriving DecidableEq, Repr

/-- `StrPool` (intern.rs lines 18-21). -/
structure StrPool where
  arena : Arena
  lookup : List StrIntern

/-- `StrPool::new` (intern.rs lines 98-103). -/
def StrPool.new (size : Nat) : StrPool := ⟨Arena.new size, []⟩

/-- `StrPool::intern` (intern.rs lines 105-130).  The scan compares lengths
first and only on equal lengths compares the stored bytes (read back from
the pool's arena memory) with the candidate; on a miss it reserves
`value.len()` bytes, copies the string's bytes there and records the new
entry. -/
def StrPool.intern (p : StrPool) (value : List Nat) : AllocResult (StrIntern × StrPool) :=
  match p.lookup.find?
      (fun e => e.len == value.length && readBytes p.arena.mem e.data e.len == value) with
  | some e => .ok (e, p)
  | none =>
    match p.arena.allocate 1 1 value.length with
    | .ok (ptr, arena2) =>
      let intern : StrIntern := ⟨ptr.addr, value.length⟩
      .ok (intern,
        ⟨{ arena2 with mem := writeBytes arena2.mem ptr.addr value }, p.lookup ++ [intern]⟩)
    | .fail => .fail
    | .panicked => .panicked

/-- `StrPool::clear` (intern.rs lines 132-135): clears the arena and the
entries.  `StrPool` keeps no generation counter. -/
def StrPool.clear (p : StrPool) : StrPool := ⟨p.arena.clear, []⟩

/-- `StrPool::occupied` (intern.rs lines 137-139). -/
def StrPool.occupied (p : StrPool) : Nat := p.arena.occupied

/-- `StrPool.len` (intern.rs lines 141-143). -/
def StrPool.len (p : StrPool) : Nat := p.lookup.length

/-- Modelled from the spec: the generation-tagged arena of spec sections 3
and 4.1.  The `Arena` in src/src/arena.rs keeps no generation counter and
its `ArenaSlice` offers no `is_valid`; spec section 9 states that the
analyzed source carries a generation-tagged iteration of the allocator and
synthesizes that variant as the target.  `GenArena` grafts the spec's
generation counter onto the source `Arena`: reset increments it, handles are
tagged with it at creation. -/
structure GenArena where
  base : Arena
  generation : Nat

/-- Modelled from the spec: a handle tagged with the arena generation at its
creation (spec section 3, `Handle<T>`). -/
structure GenHandle where
  slice : ArenaSlice
  generation : Nat

/-- Modelled from the spec: a fresh generation-tagged arena (generation
starts at 0). -/
def GenArena.new (size : Nat) : GenArena := ⟨Arena.new size, 0⟩

/-- Modelled from the spec: allocation in a generation-tagged arena is the
source `Arena::allocate`, with the returned handle tagged by the current
generation. -/
def GenArena.allocate (g : GenArena) (s a len : Nat) : AllocResult (GenHandle × GenArena) :=
  match g.base.allocate s a len with
  | .ok (h, A2) => .ok (⟨h, g.generation⟩, ⟨A2, g.generation⟩)
  | .fail => .fail
  | .panicked => .panicked

/-- Modelled from the spec (section 4.1 `clear()`): reset the cursor and
increment the generation. -/
def GenArena.clear (g : GenArena) : GenArena := ⟨g.base.clear, g.generation + 1⟩

/-- Modelled from the spec (section 4.1 `is_valid`):
`handle.generation == self.generation && handle.address ∈ [base, base + capacity)`. -/
def GenHandle.is_valid (h : GenHandle) (g : GenArena) : Bool :=
  h.generation == g.generation && decide (h.slice.addr < g.base.cap)

/-- A call in a sequence against one arena: `allocate` with size, alignment
and count; `push` of one value's bytes with its alignment; or `push_slice`
of a list of element byte images with the element size and alignment. -/
inductive Op where
  | alloc (s a len : Nat)
  | pushV (a : Nat) (bytes : List Nat)
  | pushS (s a : Nat) (elems : List (List Nat))
deriving DecidableEq

/-- The unaligned byte size a call requests (`count * size_of::<T>()`,
computed exactly). -/
def Op.sizeB : Op → Nat
  | .alloc s _ len => s * len
  | .pushV _ bytes => bytes.length
  | .pushS s _ elems => s * elems.length

/-- The alignment a call uses. -/
def Op.align : Op → Nat
  | .alloc _ a _ => a
  | .pushV a _ => a
  | .pushS _ a _ => a

/-- Perform one call against the arena. -/
def stepOp (A : Arena) : Op → AllocResult (ArenaSlice × Arena)
  | .alloc s a len => A.allocate s a len
  | .pushV a bytes => A.push a bytes
  | .pushS s a elems => A.push_slice s a elems

/-- Run a sequence of calls, stopping at the first `None` or panic. -/
def runOps (A : Arena) : List Op → AllocResult Arena
  | [] => .ok A
  | op :: rest =>
    match stepOp A op with
    | .ok (_, A2) => runOps A2 rest
    | .fail => .fail
    | .panicked => .panicked

/-- The cursor after one call, per the spec's algorithm:
`round_up(cursor, align) + count * size_of(T)`. -/
def specCursor (c : Nat) (op : Op) : Nat := alignUp c op.align + op.sizeB

/-- The cursor after a sequence of calls starting from cursor `c`; with
`c = 0` this is the sequence's cumulative aligned size. -/
def specRun (c : Nat) : List Op → Nat
  | [] => c
  | op :: rest => specRun (specCursor c op) rest

/-- True when every zero-byte call of the sequence has its aligned cursor
strictly below the capacity (such a call otherwise panics on
`data[offset]`, see claim C10). -/
def okSeq (cap c : Nat) : List Op → Bool
  | [] => true
  | op :: rest =>
    (decide (op.sizeB ≠ 0) || decide (alignUp c op.align < cap)) && okSeq cap (specCursor c op) rest

/-- Following the spec's words for `push`/`push_slice` (spec section 4.1):
first `allocate::<T>(len)`, then write the given bytes in place at the
reserved address. -/
def allocateThenWrite (A : Arena) (s a len : Nat) (bytes : List Nat) :
    AllocResult (ArenaSlice × Arena) :=
  match A.allocate s a len with
  | .ok (h, A2) => .ok (h, { A2 with mem := writeBytes A2.mem h.addr bytes })
  | .fail => .fail
  | .panicked => .panicked

/-- Drop the arena state of an outcome, keeping the handle. -/
def AllocResult.handleOf {α β : Type} : AllocResult (α × β) → Option α
  | .ok (h, _) => some h
  | _ => none

/-- `Some` on success, `None` on failure or panic. -/
def AllocResult.toOption {α : Type} : AllocResult α → Option α
  | .ok v => some v
  | _ => none

/-- The UTF-8 bytes of the string hello. -/
def helloBytes : List Nat := [104, 101, 108, 108, 111]

/-- The UTF-8 bytes of the string world. -/
def worldBytes : List Nat := [119, 111, 114, 108, 100]

/-- Scenario B of spec section 8: on a fresh `StrPool::new(1024)`, intern
hello, world, hello again; collect the first and third results together with
the final `len()` and `occupied()`. -/
def scenarioB : Option (StrIntern × StrIntern × Nat × Nat) :=
  (((StrPool.new 1024).intern helloBytes).toOption).bind fun r1 =>
    ((r1.2.intern worldBytes).toOption).bind fun r2 =>
      ((r2.2.intern helloBytes).toOption).map fun r3 =>
        (r1.1, r3.1, r3.2.len, r3.2.occupied)

/-- Every entry of the pool lies entirely below the arena cursor — the
invariant a `Pool` maintains within one generation (entries are allocated by
bumping the cursor past them). -/
def EntriesBelow {T : Type} (sT : Nat) (p : Pool T) : Prop :=
  ∀ e ∈ p.lookup, e.intern.data + sT ≤ p.arena.cursor

/-- A concrete call sequence: allocate two size-4 align-4 elements, push one
byte, push a slice of two size-2 align-2 elements. -/
def opsC1 : List Op := [Op.alloc 4 4 2, Op.pushV 1 [9], Op.pushS 2 2 [[1, 2], [3, 4]]]

/-! ## Basic facts about the alignment computation -/

theorem alignUp_one (c : Nat) : alignUp c 1 = c := by
  simp [alignUp]

theorem le_alignUp (c : Nat) {a : Nat} (ha : 1 ≤ a) : c ≤ alignUp c a := by
  unfold alignUp
  rw [Nat.mul_comm]
  have h1 := Nat.div_add_mod (c + a - 1) a
  have h2 : (c + a - 1) % a < a := Nat.mod_lt _ ha
  omega

/-! ## Claim theorems -/

/-- Claim C2, counterexample: a call that fails to produce a handle but
panics instead of returning the absent result.  The arena `⟨1, 1, _⟩` is the
state reached by pushing one byte into `Arena::new(1)`; `push_slice` of an
empty slice then indexes `data[1]` out of bounds. -/
theorem failed_call_panics_cex :
    Arena.push_slice ⟨1, 1, fun _ => 0⟩ 1 1 [] = .panicked ∧
    Arena.push_slice ⟨1, 1, fun _ => 0⟩ 1 1 [] ≠ .fail := by
  refine ⟨rfl, ?_⟩
  simp only [show Arena.push_slice ⟨1, 1, fun _ => 0⟩ 1 1 [] = AllocResult.panicked from rfl]
  simp

/-- Claim C2 (amended): an `allocate`/`push`/`push_slice` call returns the
absent result exactly when the (wrapped) new cursor exceeds the capacity,
and in that case nothing is mutated (the source sets the cursor only in the
success branch); the only other non-success outcome is the panic of a call
whose aligned offset is not below the capacity (the zero-byte corner of
claim C10). -/
theorem exhaustion_failure_characterization (A : Arena) (s a len : Nat)
    (bytes : List Nat) (elems : List (List Nat)) :
    (A.allocate s a len = .fail ↔
      A.cap < (alignUp A.cursor a + (s * len) % W) % W) ∧
    (A.allocate s a len = .panicked ↔
      (alignUp A.cursor a + (s * len) % W) % W ≤ A.cap ∧ A.cap ≤ alignUp A.cursor a) ∧
    (A.push a bytes = .fail ↔
      A.cap < (alignUp A.cursor a + bytes.length) % W) ∧
    (A.push a bytes = .panicked ↔
      (alignUp A.cursor a + bytes.length) % W ≤ A.cap ∧ A.cap ≤ alignUp A.cursor a) ∧
    (A.push_slice s a elems = .fail ↔
      A.cap < (alignUp A.cursor a + s * elems.length) % W) ∧
    (A.push_slice s a elems = .panicked ↔
      (alignUp A.cursor a + s * elems.length) % W ≤ A.cap ∧ A.cap ≤ alignUp A.cursor a) := by
  unfold Arena.allocate Arena.push Arena.push_slice
  dsimp only
  refine ⟨?_, ?_, ?_, ?_, ?_, ?_⟩ <;>
    · split_ifs with h1 h2 <;> simp_all

/-- Claim C5: the overflow of `count * size_of::<T>()` is not checked.  On
`Arena::new(16)`, allocating `2 ^ 61 + 1` elements of a type of size 8 wraps
`8 * (2 ^ 61 + 1) = 2 ^ 64 + 8` to 8 in a release build, so the call
spuriously succeeds (cursor 8) although the true request of
`8 * (2 ^ 61 + 1)` bytes vastly exceeds the capacity. -/
theorem allocate_overflow_wraps :
    (Arena.new 16).allocate 8 8 (2 ^ 61 + 1) =
      .ok (⟨0, 2 ^ 61 + 1⟩, { cap := 16, cursor := 8, mem := fun _ => 0 }) ∧
    16 < 8 * (2 ^ 61 + 1) := by
  exact ⟨rfl, by decide⟩

/-- Claim C6: Scenario B.  Interning hello, world, hello again on a fresh
`StrPool::new(1024)` gives `len() = 2` and `occupied() = 10`, and the first
and third results are the identical entry (offset 0, length 5) — the
duplicate stored zero additional bytes.  The match test is the one of
`StrPool::intern`: length equality first, then byte-wise comparison. -/
theorem strpool_scenario_dedup :
    scenarioB = some (⟨0, 5⟩, ⟨0, 5⟩, 2, 10) := by
  decide

/-- Claim C10, counterexample to its phrase "including any request on an
Arena of capacity 0": a nonzero-byte request on `Arena::new(0)` returns
`None`, it does not panic. -/
theorem cap0_nonzero_request_fails_cex :
    (Arena.new 0).allocate 8 8 1 = .fail ∧
    (Arena.new 0).allocate 8 8 1 ≠ .panicked := by
  refine ⟨rfl, ?_⟩
  simp only [show (Arena.new 0).allocate 8 8 1 = AllocResult.fail from rfl]
  simp

/-- Claim C10 (amended): whenever the aligned offset equals the capacity and
the request consumes zero bytes — count 0, an empty slice, or a zero-sized
type, including any zero-byte request on an arena of capacity 0 — the
documented success condition holds and yet the call panics on the
out-of-bounds `data[offset]`; the operation is not total. -/
theorem zero_byte_alloc_at_capacity_panics (A : Arena) (s a len : Nat)
    (hoff : alignUp A.cursor a = A.cap) :
    (s * len = 0 → A.allocate s a len = .panicked) ∧
    A.push_slice s a [] = .panicked := by
  constructor
  · intro hz
    unfold Arena.allocate
    simp only [hoff, hz, Nat.zero_mod, Nat.add_zero]
    rw [if_pos (Nat.mod_le _ _), if_neg (by omega)]
  · unfold Arena.push_slice
    simp only [List.length_nil, Nat.mul_zero, hoff, Nat.add_zero]
    rw [if_pos (Nat.mod_le _ _), if_neg (by omega)]

/-- Claim C10, witness: the zero-byte request `allocate::<u8>(0)` on
`Arena::new(0)` (aligned offset 0 = capacity) panics, as does `push_slice`
of an empty slice there. -/
theorem zero_byte_alloc_at_capacity_panics_witness :
    alignUp (Arena.new 0).cursor 1 = (Arena.new 0).cap ∧
    (Arena.new 0).allocate 1 1 0 = .panicked ∧
    (Arena.new 0).push_slice 1 1 [] = .panicked :=
  ⟨by decide,
    (zero_byte_alloc_at_capacity_panics (Arena.new 0) 1 1 0 (by decide)).1 (by decide),
    (zero_byte_alloc_at_capacity_panics (Arena.new 0) 1 1 0 (by decide)).2⟩

/-- Claim C1, counterexample: a one-call sequence whose cumulative aligned
size (0) is within the capacity (0), yet whose call panics instead of
succeeding — the zero-byte corner of claim C10. -/
theorem capacity_conservation_zero_byte_cex :
    specRun 0 [Op.alloc 1 1 0] ≤ (Arena.new 0).cap ∧
    runOps (Arena.new 0) [Op.alloc 1 1 0] = .panicked := by
  exact ⟨by decide, rfl⟩

/-- Claim C7, counterexample: cloning the zero-length handle `⟨2, 0⟩` (a
valid result of `allocate::<u8>(0)` at cursor 2) in an arena of capacity 4
returns a handle at the same address 2 — not an address different from the
original. -/
theorem clone_empty_handle_aliases_cex :
    AllocResult.handleOf (ArenaSlice.clone ⟨4, 2, fun _ => 0⟩ 1 1 ⟨2, 0⟩) = some ⟨2, 0⟩ := by
  rfl

/-- Claim C8, counterexample: on a string of total (slice) length 10 with 5
bytes already written, appending 6 bytes passes the source's guard
`self.len() > s.len()` (10 > 6) but then panics slicing `[5, 11)` out of a
10-byte slice — it neither copies nor returns `Ok`. -/
theorem write_str_pass_panics_cex :
    ([1, 2, 3, 4, 5, 6] : List Nat).length <
      (ArenaString.mk [0, 0, 0, 0, 0, 0, 0, 0, 0, 0] 5).inner.length ∧
    (ArenaString.mk [0, 0, 0, 0, 0, 0, 0, 0, 0, 0] 5).write_str [1, 2, 3, 4, 5, 6] =
      .panicked := by
  decide

/-! ## Modular-arithmetic and list helper lemmas -/

theorem addW (x y : Nat) : (x + y % W) % W = (x + y) % W := by
  simp only [W]
  omega

theorem take_len {α : Type} {l : List α} {pos : Nat} (hp : pos ≤ l.length) :
    (l.take pos).length = pos := by
  simp only [List.length_take]
  omega

theorem listWrite_length (l s : List Nat) (pos : Nat) (h : pos + s.length ≤ l.length) :
    (listWrite l pos s).length = l.length := by
  simp only [listWrite, List.length_append, List.length_take, List.length_drop]
  omega

theorem listWrite_take (l s : List Nat) (pos : Nat) (hp : pos ≤ l.length) :
    (listWrite l pos s).take pos = l.take pos := by
  rw [listWrite, List.append_assoc, List.take_append_eq_append_take, take_len hp,
    Nat.sub_self, List.take_zero, List.append_nil, List.take_take, Nat.min_self]

theorem listWrite_middle (l s : List Nat) (pos : Nat) (hp : pos ≤ l.length) :
    ((listWrite l pos s).drop pos).take s.length = s := by
  rw [listWrite, List.append_assoc, List.drop_append_eq_append_drop,
    List.drop_eq_nil_of_le (le_of_eq (take_len hp)), take_len hp, Nat.sub_self,
    List.drop_zero, List.nil_append, List.take_append_eq_append_take, List.take_length,
    Nat.sub_self, List.take_zero, List.append_nil]

/-- Claim C8 (amended): `write_str` tests the text's length against the
backing slice's total length (`self.len() > s.len()` through `Deref`), not
against the remaining preallocated capacity.  When the test fails it returns
`Err` with the string unchanged; when it passes and the written position
plus `s.len()` still fits the slice, it copies `s` at the written position,
advances the written length and returns `Ok`; but when it passes and the
copy does not fit, the subslice index panics instead of returning. -/
theorem write_str_characterization (st : ArenaString) (s : List Nat) :
    (st.inner.length ≤ s.length → st.write_str s = .err) ∧
    (s.length < st.inner.length → st.len + s.length ≤ st.inner.length →
      st.write_str s = .ok ⟨listWrite st.inner st.len s, st.len + s.length⟩ ∧
      (listWrite st.inner st.len s).length = st.inner.length ∧
      (listWrite st.inner st.len s).take st.len = st.inner.take st.len ∧
      ((listWrite st.inner st.len s).drop st.len).take s.length = s) ∧
    (s.length < st.inner.length → st.inner.length < st.len + s.length →
      st.write_str s = .panicked) := by
  refine ⟨?_, ?_, ?_⟩
  · intro h1
    unfold ArenaString.write_str
    rw [if_neg (by omega)]
  · intro h1 h2
    have hp : st.len ≤ st.inner.length := by omega
    refine ⟨?_, listWrite_length _ _ _ h2, listWrite_take _ _ _ hp, listWrite_middle _ _ _ hp⟩
    unfold ArenaString.write_str
    rw [if_pos h1, if_pos h2]
  · intro h1 h2
    unfold ArenaString.write_str
    rw [if_pos h1, if_neg (by omega)]

/-- Claim C9: `push` is the composite allocate-one-element-then-write, and
`push_slice` is the composite allocate-count-elements-then-bulk-copy: the
same success, failure and panic condition, the same resulting cursor, the
same handle range, and the same final memory contents. -/
theorem push_refines_allocate_write (A : Arena) (a s2 : Nat) (bytes : List Nat)
    (elems : List (List Nat)) :
    A.push a bytes = allocateThenWrite A bytes.length a 1 bytes ∧
    A.push_slice s2 a elems = allocateThenWrite A s2 a elems.length elems.flatten := by
  constructor
  · unfold Arena.push allocateThenWrite Arena.allocate
    dsimp only
    rw [Nat.mul_one, addW]
    split_ifs <;> rfl
  · unfold Arena.push_slice allocateThenWrite Arena.allocate
    dsimp only
    rw [addW]
    split_ifs <;> rfl

/-! ## The capacity-conservation run -/

theorem le_specRun (ops : List Op) :
    ∀ c : Nat, (∀ op ∈ ops, 1 ≤ op.align) → c ≤ specRun c ops := by
  induction ops with
  | nil => intro c _; exact le_refl c
  | cons op rest ih =>
    intro c ha
    have h1 : 1 ≤ op.align := ha op (List.mem_cons_self op rest)
    have h2 : c ≤ specCursor c op :=
      le_trans (le_alignUp c h1) (Nat.le_add_right _ _)
    exact le_trans h2 (ih (specCursor c op) fun o ho => ha o (List.mem_cons_of_mem _ ho))

theorem stepOp_ok (A : Arena) (op : Op) (hcap : A.cap < W) (ha : 1 ≤ op.align)
    (hfit : specCursor A.cursor op ≤ A.cap)
    (hz : op.sizeB = 0 → alignUp A.cursor op.align < A.cap) :
    ∃ h A2, stepOp A op = .ok (h, A2) ∧ A2.cursor = specCursor A.cursor op ∧
      A2.cap = A.cap := by
  have hfit' : alignUp A.cursor op.align + op.sizeB ≤ A.cap := hfit
  have hoff : alignUp A.cursor op.align < A.cap := by
    rcases Nat.eq_zero_or_pos op.sizeB with h0 | h0
    · exact hz h0
    · omega
  have hs1 : op.sizeB % W = op.sizeB := Nat.mod_eq_of_lt (by omega)
  have hs2 : (alignUp A.cursor op.align + op.sizeB) % W =
      alignUp A.cursor op.align + op.sizeB := Nat.mod_eq_of_lt (by omega)
  cases op with
  | alloc s a len =>
    simp only [Op.sizeB, Op.align] at hoff hs1 hs2 hfit'
    refine ⟨⟨alignUp A.cursor a, len⟩,
      { A with cursor := alignUp A.cursor a + s * len }, ?_, ?_, rfl⟩
    · simp only [stepOp]
      unfold Arena.allocate
      dsimp only
      rw [hs1, hs2, if_pos hfit', if_pos hoff]
    · simp [specCursor, Op.sizeB, Op.align]
  | pushV a bytes =>
    simp only [Op.sizeB, Op.align] at hoff hs1 hs2 hfit'
    refine ⟨⟨alignUp A.cursor a, 1⟩,
      Arena.mk A.cap (alignUp A.cursor a + bytes.length)
        (writeBytes A.mem (alignUp A.cursor a) bytes), ?_, ?_, rfl⟩
    · simp only [stepOp]
      unfold Arena.push
      dsimp only
      rw [hs2, if_pos hfit', if_pos hoff]
    · simp [specCursor, Op.sizeB, Op.align]
  | pushS s a elems =>
    simp only [Op.sizeB, Op.align] at hoff hs1 hs2 hfit'
    refine ⟨⟨alignUp A.cursor a, elems.length⟩,
      Arena.mk A.cap (alignUp A.cursor a + s * elems.length)
        (writeBytes A.mem (alignUp A.cursor a) elems.flatten), ?_, ?_, rfl⟩
    · simp only [stepOp]
      unfold Arena.push_slice
      dsimp only
      rw [hs2, if_pos hfit', if_pos hoff]
    · simp [specCursor, Op.sizeB, Op.align]

theorem runOps_ok (ops : List Op) :
    ∀ A : Arena, A.cap < W → (∀ op ∈ ops, 1 ≤ op.align) →
      specRun A.cursor ops ≤ A.cap → okSeq A.cap A.cursor ops = true →
      ∃ A2, runOps A ops = .ok A2 ∧ A2.cursor = specRun A.cursor ops ∧
        A2.cap = A.cap := by
  induction ops with
  | nil => intro A _ _ _ _; exact ⟨A, rfl, rfl, rfl⟩
  | cons op rest ih =>
    intro A hcap ha hfit hok
    have harest : ∀ o ∈ rest, 1 ≤ o.align := fun o ho => ha o (List.mem_cons_of_mem _ ho)
    have haop : 1 ≤ op.align := ha op (List.mem_cons_self _ _)
    have hfitc : specRun (specCursor A.cursor op) rest ≤ A.cap := hfit
    have hfit1 : specCursor A.cursor op ≤ A.cap :=
      le_trans (le_specRun rest (specCursor A.cursor op) harest) hfitc
    simp only [okSeq, Bool.and_eq_true, Bool.or_eq_true, decide_eq_true_eq] at hok
    obtain ⟨hz0, hokrest⟩ := hok
    have hz : op.sizeB = 0 → alignUp A.cursor op.align < A.cap := by
      intro h0
      rcases hz0 with h | h
      · exact absurd h0 h
      · exact h
    obtain ⟨h, A2, hstep, hc2, hcap2⟩ := stepOp_ok A op hcap haop hfit1 hz
    obtain ⟨A3, hrun, hc3, hcap3⟩ :=
      ih A2 (by rw [hcap2]; exact hcap) harest
        (by rw [hc2, hcap2]; exact hfitc) (by rw [hc2, hcap2]; exact hokrest)
    refine ⟨A3, ?_, ?_, by rw [hcap3, hcap2]⟩
    · simp only [runOps, hstep]
      exact hrun
    · rw [hc3, hc2]
      rfl

/-- Claim C1 (amended): starting from a fresh arena of capacity `cap`, run a
sequence of `allocate`/`push`/`push_slice` calls whose cumulative aligned
size (`specRun 0 ops`, each call contributing its alignment padding plus
`count * size_of(T)`) is at most `cap`, where every call that consumes zero
bytes has its aligned cursor strictly below `cap` (otherwise that call
panics, claim C10).  Then every call succeeds and afterwards `occupied()`
equals the cumulative aligned size exactly. -/
theorem arena_capacity_conservation (cap : Nat) (ops : List Op)
    (hcap : cap < W) (ha : ∀ op ∈ ops, 1 ≤ op.align)
    (hfit : specRun 0 ops ≤ cap) (hz : okSeq cap 0 ops = true) :
    ∃ A2, runOps (Arena.new cap) ops = .ok A2 ∧ A2.occupied = specRun 0 ops := by
  obtain ⟨A2, h1, h2, h3⟩ := runOps_ok ops (Arena.new cap) hcap ha hfit hz
  exact ⟨A2, h1, h2⟩

/-! ## Inversion of a successful allocation -/

theorem allocate_ok_inv {A A2 : Arena} {s a len : Nat} {h : ArenaSlice}
    (H : A.allocate s a len = .ok (h, A2)) :
    h.addr = alignUp A.cursor a ∧ h.len = len ∧ h.addr < A.cap ∧
    A2.cap = A.cap ∧ A2.cursor = (alignUp A.cursor a + (s * len) % W) % W ∧
    A2.cursor ≤ A.cap ∧ A2.mem = A.mem := by
  unfold Arena.allocate at H
  dsimp only at H
  split_ifs at H with h1 h2
  simp only [AllocResult.ok.injEq, Prod.mk.injEq] at H
  obtain ⟨hh, hA⟩ := H
  subst hh hA
  exact ⟨rfl, rfl, h2, rfl, rfl, h1, rfl⟩

theorem genAllocate_ok_inv {g g2 : GenArena} {s a len : Nat} {h : GenHandle}
    (H : g.allocate s a len = .ok (h, g2)) :
    h.generation = g.generation ∧ g2.generation = g.generation ∧
    h.slice.addr < g.base.cap ∧ g2.base.cap = g.base.cap := by
  unfold GenArena.allocate at H
  cases hb : g.base.allocate s a len with
  | ok val =>
    obtain ⟨hs, A2⟩ := val
    rw [hb] at H
    simp only [AllocResult.ok.injEq, Prod.mk.injEq] at H
    obtain ⟨hh, hg⟩ := H
    subst hh hg
    obtain ⟨_, _, haddr, hcap, _⟩ := allocate_ok_inv hb
    exact ⟨rfl, rfl, haddr, hcap⟩
  | fail =>
    rw [hb] at H
    exact absurd H (by simp)
  | panicked =>
    rw [hb] at H
    exact absurd H (by simp)

/-- Claim C3: `Arena::clear` resets the cursor so `occupied() = 0`;
`Pool::clear` resets its arena and increments the pool generation by exactly
one.  For the generation-tagged arena modelled from the spec (the source
`Arena` carries no generation counter and no `is_valid`; spec section 9
synthesizes them): `clear` zeroes the cursor and increments the generation
by one, every handle obtained before a `clear` reports `is_valid = false`
against the cleared arena, and every handle obtained by an allocation (in
particular after a `clear`) reports `is_valid = true` against the arena that
produced it. -/
theorem clear_reset_invalidation :
    (∀ A : Arena, A.clear.occupied = 0) ∧
    (∀ (T : Type) (p : Pool T), p.clear.occupied = 0 ∧
      p.clear.generation = p.generation + 1 ∧ p.clear.len = 0) ∧
    (∀ g : GenArena, g.clear.base.cursor = 0 ∧ g.clear.generation = g.generation + 1) ∧
    (∀ (g g1 : GenArena) (s a len : Nat) (h1 : GenHandle),
      g.allocate s a len = .ok (h1, g1) → h1.is_valid g1.clear = false) ∧
    (∀ (g g2 : GenArena) (s a len : Nat) (h2 : GenHandle),
      g.allocate s a len = .ok (h2, g2) → h2.is_valid g2 = true) := by
  refine ⟨fun A => rfl, fun T p => ⟨rfl, rfl, rfl⟩, fun g => ⟨rfl, rfl⟩, ?_, ?_⟩
  · intro g g1 s a len h1 H
    obtain ⟨hgen, hgen1, _, _⟩ := genAllocate_ok_inv H
    simp [GenHandle.is_valid, GenArena.clear, hgen, hgen1]
  · intro g g2 s a len h2 H
    obtain ⟨hgen, hgen2, haddr, hcap⟩ := genAllocate_ok_inv H
    simp [GenHandle.is_valid, hgen, hgen2, hcap, haddr]

/-- Claim C3, witness: allocate four bytes on a fresh generation-tagged
arena of capacity 8; the handle is valid before the clear and invalid
against the cleared arena, whose cursor is 0 and generation 1. -/
theorem clear_reset_invalidation_witness :
    (GenArena.new 8).allocate 1 1 4 =
      .ok (⟨⟨0, 4⟩, 0⟩, ⟨⟨8, 4, fun _ => 0⟩, 0⟩) ∧
    GenHandle.is_valid ⟨⟨0, 4⟩, 0⟩ (GenArena.clear ⟨⟨8, 4, fun _ => 0⟩, 0⟩) = false ∧
    GenHandle.is_valid ⟨⟨0, 4⟩, 0⟩ ⟨⟨8, 4, fun _ => 0⟩, 0⟩ = true ∧
    (GenArena.clear ⟨⟨8, 4, fun _ => 0⟩, 0⟩).base.cursor = 0 ∧
    (GenArena.clear ⟨⟨8, 4, fun _ => 0⟩, 0⟩).generation = 1 :=
  ⟨rfl,
    clear_reset_invalidation.2.2.2.1 (GenArena.new 8) ⟨⟨8, 4, fun _ => 0⟩, 0⟩ 1 1 4
      ⟨⟨0, 4⟩, 0⟩ rfl,
    clear_reset_invalidation.2.2.2.2 (GenArena.new 8) ⟨⟨8, 4, fun _ => 0⟩, 0⟩ 1 1 4
      ⟨⟨0, 4⟩, 0⟩ rfl,
    rfl, rfl⟩

/-! ## Pool interning -/

theorem find?_append_none {α : Type} {f : α → Bool} {l1 : List α} {e : α}
    (h : l1.find? f = none) (he : f e = true) : (l1 ++ [e]).find? f = some e := by
  rw [List.find?_append, h]
  simp [List.find?_cons, he]

theorem pool_intern_new {T : Type} [DecidableEq T] {sT : Nat} (p : Pool T) (v : T)
    (hf : p.lookup.find? (fun e => decide (e.val = v)) = none)
    (hsT : 1 ≤ sT) (hcap : p.arena.cap < W)
    (hroom : p.arena.cursor + sT ≤ p.arena.cap) :
    p.intern sT v = .ok (⟨p.arena.cursor, p.generation⟩,
      ⟨Arena.mk p.arena.cap (p.arena.cursor + sT) p.arena.mem,
        p.lookup ++ [⟨v, ⟨p.arena.cursor, p.generation⟩⟩], p.generation⟩) := by
  have hall : p.arena.allocate 1 1 sT =
      .ok (⟨p.arena.cursor, sT⟩, Arena.mk p.arena.cap (p.arena.cursor + sT) p.arena.mem) := by
    unfold Arena.allocate
    dsimp only
    rw [alignUp_one, Nat.one_mul, Nat.mod_eq_of_lt (show sT < W by omega),
      Nat.mod_eq_of_lt (show p.arena.cursor + sT < W by omega),
      if_pos hroom, if_pos (by omega)]
  unfold Pool.intern
  rw [hf, hall]

theorem pool_intern_second {T : Type} [DecidableEq T] (sT : Nat) (p1 : Pool T) (h : Intern)
    (hsT : 1 ≤ sT) (hcap1 : p1.arena.cap < W) (K2 : h.data + sT ≤ p1.arena.cursor) :
    ∀ w, (∀ e ∈ p1.lookup, e.val ≠ w) → p1.arena.cursor + sT ≤ p1.arena.cap →
      ∃ h' p2, p1.intern sT w = .ok (h', p2) ∧ h'.data ≠ h.data ∧
        p2.len = p1.len + 1 ∧ p2.occupied = p1.occupied + sT := by
  intro w hw hroom1
  have hfw : p1.lookup.find? (fun e => decide (e.val = w)) = none :=
    List.find?_eq_none.mpr fun x hx => by simpa using hw x hx
  have H2 := pool_intern_new p1 w hfw hsT hcap1 hroom1
  refine ⟨⟨p1.arena.cursor, p1.generation⟩, _, H2, ?_, ?_, ?_⟩
  · show p1.arena.cursor ≠ h.data
    omega
  · simp [Pool.len]
  · simp [Pool.occupied, Arena.occupied]

/-- Claim C4: on a pool with sufficient remaining capacity (and a value type
of nonzero size), interning a value equal to a previously interned one
returns the existing entry's handle with the pool state unchanged (so
`occupied()` and `len()` are unchanged and the handle is address-equal to
the first result), while interning a value different from every stored
entry returns a handle at a fresh address (address-unequal to the earlier
one) and increments `len()` by one and `occupied()` by the value size;
hence `len()` counts distinct values only. -/
theorem pool_interning_identity {T : Type} [DecidableEq T] (sT : Nat)
    (p0 p1 : Pool T) (v : T) (h : Intern)
    (hsT : 1 ≤ sT) (hcap : p0.arena.cap < W) (heb : EntriesBelow sT p0)
    (hroom0 : p0.arena.cursor + sT ≤ p0.arena.cap)
    (H : p0.intern sT v = .ok (h, p1)) :
    p1.intern sT v = .ok (h, p1) ∧
    ∀ w, (∀ e ∈ p1.lookup, e.val ≠ w) → p1.arena.cursor + sT ≤ p1.arena.cap →
      ∃ h' p2, p1.intern sT w = .ok (h', p2) ∧ h'.data ≠ h.data ∧
        p2.len = p1.len + 1 ∧ p2.occupied = p1.occupied + sT := by
  cases hf : p0.lookup.find? (fun e => decide (e.val = v)) with
  | some e =>
    have H1 : p0.intern sT v = .ok (e.intern, p0) := by
      unfold Pool.intern
      rw [hf]
    rw [H1] at H
    simp only [AllocResult.ok.injEq, Prod.mk.injEq] at H
    obtain ⟨hh, hp⟩ := H
    rw [← hh, ← hp]
    exact ⟨H1, pool_intern_second sT p0 e.intern hsT hcap
      (heb e (List.mem_of_find?_eq_some hf))⟩
  | none =>
    have H1 := pool_intern_new p0 v hf hsT hcap hroom0
    rw [H1] at H
    simp only [AllocResult.ok.injEq, Prod.mk.injEq] at H
    obtain ⟨hh, hp⟩ := H
    rw [← hh, ← hp]
    constructor
    · have hfv : List.find? (fun e => decide (e.val = v))
          (p0.lookup ++ [(⟨v, ⟨p0.arena.cursor, p0.generation⟩⟩ : PoolEntry T)]) =
          some ⟨v, ⟨p0.arena.cursor, p0.generation⟩⟩ := by
        apply find?_append_none hf
        simp
      unfold Pool.intern
      dsimp only
      rw [hfv]
    · exact pool_intern_second sT _ _ hsT hcap (Nat.le_refl _)

/-- Claim C4, witness: interning 5 into a fresh `Pool<Nat>` of capacity 8
(value size 1), re-interning 5 returns the same handle and state, and
interning 7 afterwards returns a handle at a different address with `len()`
2 and `occupied()` 2. -/
theorem pool_interning_identity_witness :
    (1 : Nat) ≤ 1 ∧ (Pool.new Nat 8).arena.cursor + 1 ≤ (Pool.new Nat 8).arena.cap ∧
    (Pool.new Nat 8).intern 1 5 =
      .ok (⟨0, 0⟩, ⟨Arena.mk 8 1 (fun _ => 0), [⟨5, ⟨0, 0⟩⟩], 0⟩) ∧
    (⟨Arena.mk 8 1 (fun _ => 0), [⟨5, ⟨0, 0⟩⟩], 0⟩ : Pool Nat).intern 1 5 =
      .ok (⟨0, 0⟩, ⟨Arena.mk 8 1 (fun _ => 0), [⟨5, ⟨0, 0⟩⟩], 0⟩) ∧
    ∃ h' p2, (⟨Arena.mk 8 1 (fun _ => 0), [⟨5, ⟨0, 0⟩⟩], 0⟩ : Pool Nat).intern 1 7 =
      .ok (h', p2) ∧ h'.data ≠ (0 : Nat) ∧
      p2.len = (⟨Arena.mk 8 1 (fun _ => 0), [⟨5, ⟨0, 0⟩⟩], 0⟩ : Pool Nat).len + 1 ∧
      p2.occupied =
        (⟨Arena.mk 8 1 (fun _ => 0), [⟨5, ⟨0, 0⟩⟩], 0⟩ : Pool Nat).occupied + 1 := by
  have T1 := pool_interning_identity 1 (Pool.new Nat 8)
    ⟨Arena.mk 8 1 (fun _ => 0), [⟨5, ⟨0, 0⟩⟩], 0⟩ 5 ⟨0, 0⟩ (by decide) (by decide)
    (by simp [EntriesBelow, Pool.new]) (by decide) rfl
  exact ⟨by decide, by decide, rfl, T1.1, T1.2 7 (by decide) (by decide)⟩

/-! ## Byte-level read/write lemmas for the deep-clone claim -/

theorem readBytes_length (m : Nat → Nat) (addr n : Nat) :
    (readBytes m addr n).length = n := by
  simp [readBytes]

theorem range_map_getD (l : List Nat) :
    (List.range l.length).map (fun i => l.getD i 0) = l := by
  induction l with
  | nil => rfl
  | cons x xs ih =>
    rw [List.length_cons, List.range_succ_eq_map, List.map_cons, List.map_map]
    congr 1

theorem readBytes_add (m : Nat → Nat) (addr p q : Nat) :
    readBytes m addr (p + q) = readBytes m addr p ++ readBytes m (addr + p) q := by
  unfold readBytes
  rw [List.range_add, List.map_append, List.map_map]
  congr 1
  apply List.map_congr_left
  intro i _
  simp [Function.comp, Nat.add_assoc]

theorem flatten_chunks (m : Nat → Nat) (s : Nat) :
    ∀ (n : Nat) (addr : Nat),
      ((List.range n).map fun i => readBytes m (addr + s * i) s).flatten =
        readBytes m addr (s * n) := by
  intro n
  induction n with
  | zero =>
    intro addr
    simp [readBytes]
  | succ k ih =>
    intro addr
    rw [List.range_succ, List.map_append, List.flatten_append, ih addr]
    simp only [List.map_cons, List.map_nil, List.flatten_cons, List.flatten_nil,
      List.append_nil]
    rw [Nat.mul_succ, readBytes_add]

theorem writeBytes_lt (m : Nat → Nat) (addr : Nat) (bs : List Nat) (i : Nat)
    (h : i < addr) : writeBytes m addr bs i = m i := by
  unfold writeBytes
  rw [if_neg (by omega)]

theorem readBytes_writeBytes (m : Nat → Nat) (addr : Nat) (bs : List Nat) :
    readBytes (writeBytes m addr bs) addr bs.length = bs := by
  unfold readBytes
  have hpt : ∀ i ∈ List.range bs.length,
      writeBytes m addr bs (addr + i) = bs.getD i 0 := by
    intro i hi
    rw [List.mem_range] at hi
    unfold writeBytes
    rw [if_pos (by omega)]
    congr 1
    omega
  rw [List.map_congr_left hpt]
  exact range_map_getD bs

theorem readBytes_write_low (m : Nat → Nat) (waddr : Nat) (bs : List Nat)
    (addr n : Nat) (h : addr + n ≤ waddr) :
    readBytes (writeBytes m waddr bs) addr n = readBytes m addr n := by
  unfold readBytes
  apply List.map_congr_left
  intro i hi
  rw [List.mem_range] at hi
  exact writeBytes_lt m waddr bs (addr + i) (by omega)

/-- Claim C7 (amended): cloning a live handle of `n ≥ 1` elements of a type
of nonzero size, in an arena with room for another aligned `n`-element
block, is a fresh allocation plus bulk copy in the same arena: the returned
handle starts at the freshly aligned cursor (an address different from the
original), has the same element count, the arena's `occupied()` grows by the
aligned size of the block, the new region's bytes equal the original
region's bytes at clone time, and the original region is untouched — never
a pointer-aliasing copy.  (A zero-byte handle's clone can alias the original
address, see the counterexample.) -/
theorem clone_deep_copy (A : Arena) (s a : Nat) (h : ArenaSlice)
    (hs : 1 ≤ s) (hl : 1 ≤ h.len) (ha : 1 ≤ a)
    (hlive : h.addr + s * h.len ≤ A.cursor)
    (hroom : alignUp A.cursor a + s * h.len ≤ A.cap)
    (hcap : A.cap < W) :
    ∃ h' A2, ArenaSlice.clone A s a h = .ok (h', A2) ∧
      h'.addr = alignUp A.cursor a ∧ h'.addr ≠ h.addr ∧ h'.len = h.len ∧
      A2.occupied = A.occupied + ((alignUp A.cursor a - A.cursor) + s * h.len) ∧
      readBytes A2.mem h'.addr (s * h.len) = readBytes A.mem h.addr (s * h.len) ∧
      readBytes A2.mem h.addr (s * h.len) = readBytes A.mem h.addr (s * h.len) := by
  have hoffc : A.cursor ≤ alignUp A.cursor a := le_alignUp _ ha
  have hpos : 0 < s * h.len := Nat.mul_pos hs hl
  have hps : A.push_slice s a
      ((List.range h.len).map fun i => readBytes A.mem (h.addr + s * i) s) =
      .ok (⟨alignUp A.cursor a, h.len⟩,
        Arena.mk A.cap (alignUp A.cursor a + s * h.len)
          (writeBytes A.mem (alignUp A.cursor a)
            (readBytes A.mem h.addr (s * h.len)))) := by
    unfold Arena.push_slice
    dsimp only
    rw [List.length_map, List.length_range, flatten_chunks,
      Nat.mod_eq_of_lt (by omega), if_pos hroom, if_pos (by omega)]
  refine ⟨⟨alignUp A.cursor a, h.len⟩,
    Arena.mk A.cap (alignUp A.cursor a + s * h.len)
      (writeBytes A.mem (alignUp A.cursor a) (readBytes A.mem h.addr (s * h.len))),
    ?_, rfl, ?_, rfl, ?_, ?_, ?_⟩
  · unfold ArenaSlice.clone
    dsimp only
    rw [hps]
  · show alignUp A.cursor a ≠ h.addr
    omega
  · show alignUp A.cursor a + s * h.len =
      A.cursor + ((alignUp A.cursor a - A.cursor) + s * h.len)
    omega
  · have hrw := readBytes_writeBytes A.mem (alignUp A.cursor a)
      (readBytes A.mem h.addr (s * h.len))
    rwa [readBytes_length] at hrw
  · exact readBytes_write_low _ _ _ _ _ (by omega)

/-- Claim C7, witness: clone the live two-byte handle `⟨0, 2⟩` in an arena
of capacity 8 with cursor 2: the clone lands at address 2 ≠ 0, keeps length
2, raises `occupied()` to 4 and copies the two original bytes. -/
theorem clone_deep_copy_witness :
    (⟨0, 2⟩ : ArenaSlice).addr + 1 * (⟨0, 2⟩ : ArenaSlice).len ≤
      (Arena.mk 8 2 fun _ => 0).cursor ∧
    alignUp (Arena.mk 8 2 fun _ => 0).cursor 1 + 1 * (⟨0, 2⟩ : ArenaSlice).len ≤
      (Arena.mk 8 2 fun _ => 0).cap ∧
    ∃ h' A2, ArenaSlice.clone (Arena.mk 8 2 fun _ => 0) 1 1 ⟨0, 2⟩ = .ok (h', A2) ∧
      h'.addr = 2 ∧ h'.addr ≠ 0 ∧ h'.len = 2 ∧ A2.occupied = 4 ∧
      readBytes A2.mem h'.addr 2 = readBytes (Arena.mk 8 2 fun _ => 0).mem 0 2 ∧
      readBytes A2.mem 0 2 = readBytes (Arena.mk 8 2 fun _ => 0).mem 0 2 :=
  ⟨by decide, by decide,
    clone_deep_copy (Arena.mk 8 2 fun _ => 0) 1 1 ⟨0, 2⟩ (by decide) (by decide)
      (by decide) (by decide) (by decide) (by decide)⟩

/-- Claim C1, witness: the three-call sequence `opsC1` on `Arena::new(16)`:
cumulative aligned size 8 + 1 + (1 pad + 4) = 14 ≤ 16; all calls succeed and
`occupied()` ends at 14. -/
theorem arena_capacity_conservation_witness :
    (16 : Nat) < W ∧ (∀ op ∈ opsC1, 1 ≤ op.align) ∧ specRun 0 opsC1 ≤ 16 ∧
    okSeq 16 0 opsC1 = true ∧ specRun 0 opsC1 = 14 ∧
    ∃ A2, runOps (Arena.new 16) opsC1 = .ok A2 ∧ A2.occupied = specRun 0 opsC1 :=
  ⟨by decide, by decide, by decide, by decide, by decide,
    arena_capacity_conservation 16 opsC1 (by decide) (by decide) (by decide) (by decide)⟩

end Monolith
